import Mathlib

set_option maxHeartbeats 1000000

/-!
Verification of the myclaw channel gateway against its specification.

The CLI surface (onboard, status, gateway startup, agent command) is embedded
from src/cmd/myclaw/main.go.  The gateway core (Dispatcher, Session Store,
Scheduler, Heartbeat Monitor) lives in internal packages that are not part of
the available sources, so those components are modelled from the
specification text; every such definition carries a doc comment starting
with "Modelled from the spec".
-/

namespace Myclaw

/- ## Configuration data, embedded from the fields of internal/config used by
src/cmd/myclaw/main.go (runStatus, runGateway, resolveSkillsDir). -/

structure AgentConfig where
  workspace : String
  model : String
deriving DecidableEq

structure ProviderConfig where
  type : String
  apiKey : String
deriving DecidableEq

/-- Per-channel configuration.  The `enabled` flag is read by runStatus;
`credentialsValid` is modelled from the spec (section 7): whether the
channel's credentials pass the startup validation done inside
internal/gateway, which is not among the available sources. -/
structure ChannelConfig where
  enabled : Bool
  credentialsValid : Bool
deriving DecidableEq

structure ChannelsConfig where
  telegram : ChannelConfig
  feishu : ChannelConfig
  wecom : ChannelConfig
deriving DecidableEq

structure SkillsConfig where
  enabled : Bool
  dir : String
deriving DecidableEq

structure Config where
  provider : ProviderConfig
  agent : AgentConfig
  channels : ChannelsConfig
  skills : SkillsConfig
deriving DecidableEq

/-- Embeds providerDisplay from src/cmd/myclaw/main.go:637-642. -/
def providerDisplay (t : String) : String :=
  if t = "" then "anthropic (default)" else t

/-- Embeds resolveSkillsDir from src/cmd/myclaw/main.go:644-649. -/
def resolveSkillsDir (cfg : Config) : String :=
  if cfg.skills.dir ≠ "" then cfg.skills.dir else cfg.agent.workspace ++ "/skills"

/-- The path of the configuration file, config.ConfigPath().  Its value is
fixed for a given HOME; the concrete resolution lives in internal/config,
which is not among the available sources, so it is an abstract constant. -/
def cfgPath : String := ".myclaw/config.json"

/-- Go formats booleans with %v as true/false. -/
def boolStr (b : Bool) : String := if b then "true" else "false"

/-- Embeds the API-key line of runStatus, src/cmd/myclaw/main.go:334-341:
a key longer than 8 characters is masked to its first 4 and last 4
characters, a shorter non-empty key prints as "set". -/
def apiKeyLine (key : String) : String :=
  if key ≠ "" ∧ 8 < key.length then
    "API Key: " ++ key.take 4 ++ "..." ++ key.drop (key.length - 4)
  else if key ≠ "" then "API Key: set"
  else "API Key: not set"

/-- Embeds the output of runStatus (src/cmd/myclaw/main.go:323-360) on the
successful-load path, as the list of printed lines.  `workspaceExists` and
`longTerm` stand for the result of os.Stat on the workspace and of
MemoryStore.ReadLongTerm (internal/memory is not among the available
sources); they are inputs the function's output depends on. -/
def runStatusLines (cfg : Config) (workspaceExists : Bool) (longTerm : String) : List String :=
  ["Config: " ++ cfgPath,
   "Workspace: " ++ cfg.agent.workspace,
   "Model: " ++ cfg.agent.model,
   "Provider: " ++ providerDisplay cfg.provider.type,
   apiKeyLine cfg.provider.apiKey,
   "Telegram: enabled=" ++ boolStr cfg.channels.telegram.enabled,
   "Feishu: enabled=" ++ boolStr cfg.channels.feishu.enabled,
   "WeCom: enabled=" ++ boolStr cfg.channels.wecom.enabled,
   "Skills: enabled=" ++ boolStr cfg.skills.enabled ++ " dir=" ++ resolveSkillsDir cfg]
  ++ (if workspaceExists = false then
        ["Workspace: not found (run \x27myclaw onboard\x27)"]
      else if longTerm ≠ "" then
        ["Memory: " ++ toString longTerm.length ++ " bytes"]
      else
        ["Memory: empty"])

/- ## File system model and onboard, embedded from src/cmd/myclaw/main.go -/

/-- The file system as a map from paths to file contents. -/
def FS : Type := String → Option String

/-- Writing a file (os.WriteFile). -/
def fsWrite (fs : FS) (path content : String) : FS :=
  fun q => if q = path then some content else fs q

/-- Embeds writeIfNotExists from src/cmd/myclaw/main.go:769-774: the file is
written only when the target does not exist. -/
def writeIfNotExists (fs : FS) (path content : String) : FS :=
  if fs path = none then fsWrite fs path content else fs

/-- Embeds the defaultAgentsMD constant from src/cmd/myclaw/main.go:776-788. -/
def defaultAgentsMD : String :=
  "# myclaw Agent\n\nYou are myclaw, a personal AI assistant.\n\nYou have access to tools for file operations, web search, and command execution.\nUse them to help the user accomplish tasks.\n\n## Guidelines\n- Be concise and helpful\n- Use tools proactively when needed\n- Remember information the user tells you by writing to memory\n- Check your memory context for previously stored information\n"

/-- Embeds the defaultSoulMD constant from src/cmd/myclaw/main.go:790-799. -/
def defaultSoulMD : String :=
  "# Soul\n\nYou are a capable personal assistant that helps with daily tasks,\nresearch, coding, and general questions.\n\nYour personality:\n- Direct and efficient\n- Technical when needed, simple when possible\n- Proactive about using tools to get real answers\n"

/-- The serialized default configuration written by onboard.
config.DefaultConfig and its JSON marshalling live in internal/config,
which is not among the available sources; the claims do not depend on the
concrete bytes, only on the file being created at most once. -/
def defaultConfigJSON : String := "default-config-json"

/-- Embeds runOnboard from src/cmd/myclaw/main.go:279-321, restricted to its
effect on file contents (directory creation does not change the file map).
The config file is written only when absent (the source guards the write
with os.Stat/IsNotExist, which is exactly the check writeIfNotExists
performs); then the workspace path is resolved from the loaded config
(config.LoadConfig is in internal/config, not among the available sources,
so the resolver `loadWs` is a parameter) and the four workspace files are
created with writeIfNotExists. -/
def runOnboard (loadWs : Option String → String) (fs : FS) : FS :=
  let fs1 := writeIfNotExists fs cfgPath defaultConfigJSON
  let ws := loadWs (fs1 cfgPath)
  let fs2 := writeIfNotExists fs1 (ws ++ "/AGENTS.md") defaultAgentsMD
  let fs3 := writeIfNotExists fs2 (ws ++ "/SOUL.md") defaultSoulMD
  let fs4 := writeIfNotExists fs3 (ws ++ "/memory/MEMORY.md") ""
  writeIfNotExists fs4 (ws ++ "/HEARTBEAT.md") ""

/- ## Gateway startup, embedded from runGateway with per-channel startup
modelled from the spec. -/

inductive Channel where
  | telegram
  | feishu
  | wecom
deriving DecidableEq

def allChannels : List Channel := [Channel.telegram, Channel.feishu, Channel.wecom]

def chanCfg (cfg : Config) : Channel → ChannelConfig
  | Channel.telegram => cfg.channels.telegram
  | Channel.feishu => cfg.channels.feishu
  | Channel.wecom => cfg.channels.wecom

/-- Modelled from the spec (sections 4.1 and 7): per-channel startup inside
gateway.New/Run (internal/gateway, not among the available sources).  Every
enabled channel with valid credentials starts; an enabled channel with
invalid credentials yields a ConfigError that is fatal only for that
channel.  Returns the started channels and the channels with a ConfigError. -/
def startChannels (cfg : Config) : List Channel × List Channel :=
  (allChannels.filter (fun ch => (chanCfg cfg ch).enabled && (chanCfg cfg ch).credentialsValid),
   allChannels.filter (fun ch => (chanCfg cfg ch).enabled && !(chanCfg cfg ch).credentialsValid))

/-- Embeds runGateway from src/cmd/myclaw/main.go:261-277: a config load
failure (`none`) or an empty provider API key makes the whole command return
an error before any channel starts; otherwise the gateway runs and channel
startup proceeds as modelled above. -/
def runGateway (loaded : Option Config) : Except String (List Channel × List Channel) :=
  match loaded with
  | none => Except.error "load config"
  | some cfg =>
    if cfg.provider.apiKey = "" then
      Except.error "API key not set. Run myclaw onboard or set MYCLAW_API_KEY / ANTHROPIC_API_KEY"
    else Except.ok (startChannels cfg)

/- ## Callers of the reasoning backend's Run operation. -/

/-- A Go context, abstracted to the one property the claims mention: the
timeout/deadline it carries, if any.  context.Background() carries none. -/
structure Ctx where
  timeout : Option Nat
deriving DecidableEq

def Ctx.bounded (c : Ctx) : Bool := c.timeout.isSome

/-- context.Background(), used by runAgentWithOptions at
src/cmd/myclaw/main.go:213. -/
def contextBackground : Ctx := { timeout := none }

inductive Caller where
  | dispatcher
  | agentCLI
deriving DecidableEq

/-- One invocation of Runtime.Run (src/cmd/myclaw/main.go:26-29). -/
structure RunCall where
  caller : Caller
  ctx : Ctx
  sessionID : String
  prompt : String
deriving DecidableEq

/-- Embeds the REPL loop of runAgentWithOptions
(src/cmd/myclaw/main.go:230-257): one Run call per non-empty input line,
stopping at exit/quit, every call with context.Background(). -/
def replRunCalls : List String → List RunCall
  | [] => []
  | line :: rest =>
    if line.trim = "" then replRunCalls rest
    else if line.trim = "exit" ∨ line.trim = "quit" then []
    else { caller := Caller.agentCLI, ctx := contextBackground,
           sessionID := "cli-repl", prompt := line.trim } :: replRunCalls rest

/-- Embeds the Run invocations performed by runAgentWithOptions
(src/cmd/myclaw/main.go:213-257): in single-message mode one call with
session id "cli", otherwise the REPL calls; all of them use
context.Background(). -/
def runAgentRunCalls (messageFlag : String) (stdinLines : List String) : List RunCall :=
  if messageFlag ≠ "" then
    [{ caller := Caller.agentCLI, ctx := contextBackground,
       sessionID := "cli", prompt := messageFlag }]
  else replRunCalls stdinLines

/- ## Gateway core: Dispatcher, modelled from the spec (sections 3, 4.3). -/

abbrev SessionKey := Nat × Nat

/-- Modelled from the spec: the canonical Message (section 3); channel and
conversation identifiers are abstracted to numbers, the session key is the
pair (channel, externalConversationID). -/
structure Message where
  channel : Nat
  convID : Nat
  idem : Nat
  text : String
deriving DecidableEq

def Message.key (m : Message) : SessionKey := (m.channel, m.convID)

/-- Modelled from the spec: the per-key part of a Session (section 3):
the inFlight flag and the pending queue. -/
structure Sess where
  inFlight : Bool
  pending : List Message
deriving DecidableEq

/-- Modelled from the spec: Dispatcher state.  `sessions` holds the
per-key session records, `inflight` the backend calls currently executing
(observable concurrency), `seen` the recently-seen idempotency keys,
`calls` the log of requests delivered to the reasoning backend in delivery
order, and `sent` the log of adapter Send invocations. -/
structure DState where
  sessions : SessionKey → Sess
  inflight : List Message
  seen : List Nat
  calls : List Message
  sent : List (SessionKey × String)

/-- Modelled from the spec (section 6): retry bound, fallback reply text and
per-call timeout are configuration values. -/
structure DispatchConfig where
  retryBound : Nat
  fallbackText : String
  callTimeout : Nat

/-- Modelled from the spec (section 6): the Dispatcher builds each backend
Run invocation with a bounded per-call timeout taken from configuration. -/
def dispatcherRunCall (cfg : DispatchConfig) (sid prompt : String) : RunCall :=
  { caller := Caller.dispatcher, ctx := { timeout := some cfg.callTimeout },
    sessionID := sid, prompt := prompt }

/-- Modelled from the spec: the events driving the Dispatcher: a Message
arriving from the intake queue, or the backend call for a session key
finishing with the given per-attempt results (none = timeout or transient
error on that attempt, some t = success with reply text t). -/
inductive Event where
  | arrive (m : Message)
  | complete (k : SessionKey) (attempts : List (Option String))

def updSession (ss : SessionKey → Sess) (k : SessionKey) (f : Sess → Sess) :
    SessionKey → Sess :=
  fun k' => if k' = k then f (ss k) else ss k'

/-- Appending a Message to a session's pending queue. -/
def pushPending (m : Message) (ss : Sess) : Sess :=
  { ss with pending := ss.pending ++ [m] }

/-- Setting a session's inFlight flag. -/
def setInFlight (b : Bool) (ss : Sess) : Sess :=
  { ss with inFlight := b }

/-- Replacing a session's pending queue. -/
def setPending (p : List Message) (ss : Sess) : Sess :=
  { ss with pending := p }

/-- Modelled from the spec (section 4.3, dedup and steps 1-3): an exact
duplicate (idempotencyKey already seen) is discarded before session
resolution; otherwise, if the session is inFlight the Message is appended to
its pending queue, else the session is marked inFlight and the Message is
delivered to the backend. -/
def arriveStep (s : DState) (m : Message) : DState :=
  if m.idem ∈ s.seen then s
  else if (s.sessions m.key).inFlight then
    { s with seen := m.idem :: s.seen,
             sessions := updSession s.sessions m.key (pushPending m) }
  else
    { s with seen := m.idem :: s.seen,
             sessions := updSession s.sessions m.key (setInFlight true),
             inflight := s.inflight ++ [m],
             calls := s.calls ++ [m] }

/-- First successful attempt result, if any. -/
def firstSuccess : List (Option String) → Option String
  | [] => none
  | some t :: _ => some t
  | none :: rest => firstSuccess rest

/-- Modelled from the spec (section 4.3, steps 3-5): the backend call is
retried up to the fixed bound; the result is the first success within the
bound, or none when every attempt up to the bound failed. -/
def resolveCall (bound : Nat) (attempts : List (Option String)) : Option String :=
  firstSuccess (attempts.take bound)

/-- Modelled from the spec (section 4.3, steps 4-5): the text sent back to
the user — the reply of the first successful attempt, or the configured
fallback text when every attempt up to the retry bound failed. -/
def completeReply (cfg : DispatchConfig) (attempts : List (Option String)) : String :=
  match resolveCall cfg.retryBound attempts with
  | some t => t
  | none => cfg.fallbackText

/-- Modelled from the spec (section 4.3, steps 4-6): when the backend call
for a session finishes, the reply (or, after exhausted retries, the
configured fallback text) is sent through the originating adapter exactly
once; then, if the pending queue is non-empty, the next Message is dequeued
and delivered to the backend keeping the session inFlight, otherwise
inFlight is cleared. -/
def completeStep (cfg : DispatchConfig) (s : DState) (k : SessionKey)
    (attempts : List (Option String)) : DState :=
  if (s.sessions k).inFlight then
    let reply := completeReply cfg attempts
    match (s.sessions k).pending with
    | [] =>
      { s with sent := s.sent ++ [(k, reply)],
               inflight := s.inflight.filter (fun m => decide (m.key ≠ k)),
               sessions := updSession s.sessions k (setInFlight false) }
    | m :: rest =>
      { s with sent := s.sent ++ [(k, reply)],
               inflight := s.inflight.filter (fun m => decide (m.key ≠ k)) ++ [m],
               sessions := updSession s.sessions k (setPending rest),
               calls := s.calls ++ [m] }
  else s

def step (cfg : DispatchConfig) (s : DState) : Event → DState
  | Event.arrive m => arriveStep s m
  | Event.complete k attempts => completeStep cfg s k attempts

/-- Running the Dispatcher over a sequence of events. -/
def drun (cfg : DispatchConfig) (s : DState) (es : List Event) : DState :=
  es.foldl (step cfg) s

def initState : DState :=
  { sessions := fun _ => { inFlight := false, pending := [] },
    inflight := [], seen := [], calls := [], sent := [] }

def Reachable (cfg : DispatchConfig) (s : DState) : Prop :=
  ∃ es, drun cfg initState es = s

/-- Number of elements satisfying a test. -/
def countIf (p : Message → Bool) : List Message → Nat
  | [] => 0
  | m :: l => (if p m then 1 else 0) + countIf p l

def countIdem (i : Nat) (l : List Message) : Nat :=
  countIf (fun m => decide (m.idem = i)) l

def countKey (k : SessionKey) (l : List Message) : Nat :=
  countIf (fun m => decide (m.key = k)) l

/-- The messages of `l` belonging to session key `k`. -/
def keyCalls (k : SessionKey) (l : List Message) : List Message :=
  l.filter (fun m => decide (m.key = k))

/-- The evolution of the recently-seen idempotency-key set along an event
sequence. -/
def seenAfter (seen : List Nat) : List Event → List Nat
  | [] => seen
  | Event.arrive m :: es =>
    seenAfter (if m.idem ∈ seen then seen else m.idem :: seen) es
  | Event.complete _ _ :: es => seenAfter seen es

/-- The Messages that pass deduplication along an event sequence, in arrival
order, across all session keys. -/
def admittedMsgs (seen : List Nat) : List Event → List Message
  | [] => []
  | Event.arrive m :: es =>
    if m.idem ∈ seen then admittedMsgs seen es
    else m :: admittedMsgs (m.idem :: seen) es
  | Event.complete _ _ :: es => admittedMsgs seen es

/-- The deduplicated arrivals for one session key, in arrival order. -/
def dedupArrivals (seen : List Nat) (k : SessionKey) (es : List Event) : List Message :=
  keyCalls k (admittedMsgs seen es)

/-- The Dispatcher state invariant: an idle session has an empty pending
queue, every queued Message belongs to its session, and the number of
in-flight backend calls for a key is exactly what its inFlight flag says
(so never more than one). -/
structure Inv (s : DState) : Prop where
  idle_empty : ∀ k, (s.sessions k).inFlight = false → (s.sessions k).pending = []
  pending_key : ∀ k m, m ∈ (s.sessions k).pending → m.key = k
  flight_count : ∀ k, countKey k s.inflight =
    (if (s.sessions k).inFlight then 1 else 0)

/- ## Heartbeat Monitor, modelled from the spec (sections 3, 4.6). -/

/-- Modelled from the spec: HeartbeatRecord (section 3). -/
structure HeartbeatRecord where
  lastSuccessAt : Option Nat
  consecutiveFailures : Nat
  interval : Nat
  failureThreshold : Nat
deriving DecidableEq

/-- Modelled from the spec (section 4.6): one heartbeat run.  Success resets
consecutiveFailures to 0; failure increments it, and exactly when the
incremented counter reaches failureThreshold one escalation Message is
emitted (the counter is not reset, so later failures escalate no further).
Returns the updated record and whether an escalation was emitted. -/
def hbStep (now : Nat) (h : HeartbeatRecord) (success : Bool) : HeartbeatRecord × Bool :=
  if success then
    ({ h with consecutiveFailures := 0, lastSuccessAt := some now }, false)
  else
    let f := h.consecutiveFailures + 1
    ({ h with consecutiveFailures := f }, decide (f = h.failureThreshold))

/-- Running the heartbeat over a sequence of run outcomes, counting the
escalation Messages emitted. -/
def hbRun (now : Nat) (h : HeartbeatRecord) : List Bool → HeartbeatRecord × Nat
  | [] => (h, 0)
  | r :: rs =>
    let s := hbStep now h r
    let t := hbRun (now + 1) s.1 rs
    (t.1, (if s.2 then 1 else 0) + t.2)

/- ## Scheduler, modelled from the spec (sections 3, 4.5). -/

inductive JobKind where
  | periodicPrompt
  | heartbeat
deriving DecidableEq

/-- Modelled from the spec: ScheduledJob (section 3), with a fixed-interval
spec. -/
structure ScheduledJob where
  id : Nat
  interval : Nat
  nextRunAt : Nat
  lastRunAt : Option Nat
  lastStatus : Option Bool
  kind : JobKind
deriving DecidableEq

/-- Modelled from the spec (section 4.5): executing a job records
lastRunAt/lastStatus and recomputes nextRunAt from the current instant,
regardless of success or failure. -/
def execJob (now : Nat) (result : Bool) (j : ScheduledJob) : ScheduledJob :=
  { j with lastRunAt := some now, lastStatus := some result,
           nextRunAt := now + j.interval }

/-- Modelled from the spec (section 4.5): one pass of the scheduler run loop
executes every job whose nextRunAt has arrived; `results` gives each
execution's outcome; failures never remove a job. -/
def schedulerTick (now : Nat) (results : Nat → Bool) (jobs : List ScheduledJob) :
    List ScheduledJob :=
  jobs.map (fun j => if j.nextRunAt ≤ now then execJob now (results j.id) j else j)

/- ## Concrete inputs used by the witness theorems. -/

def cfg0 : DispatchConfig :=
  { retryBound := 3, fallbackText := "I could not process your request, please try again.",
    callTimeout := 30 }

def msg1 : Message := { channel := 0, convID := 0, idem := 1, text := "hello" }

def msg2 : Message := { channel := 0, convID := 0, idem := 2, text := "again" }

def key0 : SessionKey := (0, 0)

def chOff : ChannelConfig := { enabled := false, credentialsValid := false }

def chOn : ChannelConfig := { enabled := true, credentialsValid := true }

def chBad : ChannelConfig := { enabled := true, credentialsValid := false }

/-- A configuration whose provider API key is empty while the Telegram
channel is enabled with valid credentials. -/
def cfgNoKey : Config :=
  { provider := { type := "", apiKey := "" },
    agent := { workspace := "/ws", model := "m" },
    channels := { telegram := chOn, feishu := chOff, wecom := chOff },
    skills := { enabled := false, dir := "" } }

/-- A configuration with an API key, one well-configured channel and one
misconfigured channel. -/
def cfgMixed : Config :=
  { provider := { type := "", apiKey := "k" },
    agent := { workspace := "/ws", model := "m" },
    channels := { telegram := chOn, feishu := chBad, wecom := chOff },
    skills := { enabled := false, dir := "" } }

/-- A configuration with a short (6-character) API key. -/
def cfgShortKey : Config :=
  { provider := { type := "", apiKey := "abcdef" },
    agent := { workspace := "/ws", model := "m" },
    channels := { telegram := chOff, feishu := chOff, wecom := chOff },
    skills := { enabled := false, dir := "" } }

/-- Same as cfgShortKey except for a 12-character API key agreeing with the
short one on the first 4 and last 4 characters. -/
def cfgLongKey : Config :=
  { cfgShortKey with provider := { type := "", apiKey := "abcdXXXXcdef" } }

/-- A configuration with a 9-character API key. -/
def cfgLongKeyA : Config :=
  { cfgShortKey with provider := { type := "", apiKey := "abcdefghi" } }

/-- Same as cfgLongKeyA except for a 14-character API key agreeing with it
on the first 4 and last 4 characters. -/
def cfgLongKeyB : Config :=
  { cfgShortKey with provider := { type := "", apiKey := "abcdXXXXXXfghi" } }

def loadWs0 : Option String → String := fun _ => "ws"

def fs0 : FS := fun p => if p = "keep.txt" then some "data" else none

def job0 : ScheduledJob :=
  { id := 1, interval := 10, nextRunAt := 5, lastRunAt := none,
    lastStatus := none, kind := JobKind.heartbeat }

/-- The single Run call issued by `myclaw agent -m "hi"`. -/
def cliCallHi : RunCall :=
  { caller := Caller.agentCLI, ctx := contextBackground,
    sessionID := "cli", prompt := "hi" }

/- ## Heartbeat lemmas. -/

theorem hbRun_append (now : Nat) (h : HeartbeatRecord) (l1 l2 : List Bool) :
    hbRun now h (l1 ++ l2) =
      ((hbRun (now + l1.length) (hbRun now h l1).1 l2).1,
       (hbRun now h l1).2 + (hbRun (now + l1.length) (hbRun now h l1).1 l2).2) := by
  induction l1 generalizing now h with
  | nil => simp [hbRun]
  | cons r rs ih =>
    simp only [List.cons_append, hbRun, List.length_cons]
    have hconv : rs.append l2 = rs ++ l2 := rfl
    rw [hconv, ih (now + 1) (hbStep now h r).1]
    have harr : now + (rs.length + 1) = now + 1 + rs.length := by omega
    rw [harr]
    simp only [Prod.mk.injEq, eq_self_iff_true, true_and]
    omega

theorem hbRun_replicate_false (n : Nat) (now : Nat) (ls : Option Nat) (f iv t : Nat) :
    hbRun now ⟨ls, f, iv, t⟩ (List.replicate n false) =
      (⟨ls, f + n, iv, t⟩, if f < t ∧ t ≤ f + n then 1 else 0) := by
  induction n generalizing now f with
  | zero =>
    simp only [List.replicate, hbRun]
    have h0 : ¬(f < t ∧ t ≤ f + 0) := by omega
    rw [if_neg h0, Nat.add_zero]
  | succ n ih =>
    simp only [List.replicate, hbRun, hbStep, if_neg (Bool.false_ne_true),
      decide_eq_true_eq]
    rw [ih (now + 1) (f + 1)]
    have h1 : f + 1 + n = f + (n + 1) := by omega
    rw [h1]
    have h2 : (if f + 1 = t then 1 else 0) +
        (if f + 1 < t ∧ t ≤ f + (n + 1) then 1 else 0) =
        (if f < t ∧ t ≤ f + (n + 1) then 1 else 0) := by
      split_ifs <;> omega
    rw [h2]

/- ## Claim C4. -/

/-- C4: the Heartbeat Monitor escalates exactly once per failure episode:
a run of n consecutive failures from a reset counter emits exactly one
escalation when n reaches failureThreshold and none otherwise; a success
resets the counter, after which a new run of failures can emit exactly one
new escalation. -/
theorem heartbeat_escalates_once_per_episode
    (t n m now iv : Nat) (ht : 0 < t) :
    (hbRun now ⟨none, 0, iv, t⟩ (List.replicate n false)).2 =
      (if t ≤ n then 1 else 0) ∧
    (hbRun now ⟨none, 0, iv, t⟩
        (List.replicate n false ++ true :: List.replicate m false)).2 =
      (if t ≤ n then 1 else 0) + (if t ≤ m then 1 else 0) ∧
    ∀ (h : HeartbeatRecord) (now' : Nat),
      (hbStep now' h true).1.consecutiveFailures = 0 := by
  refine ⟨?_, ?_, fun h now' => by simp [hbStep]⟩
  · rw [hbRun_replicate_false]
    split_ifs <;> omega
  · rw [hbRun_append, hbRun_replicate_false]
    have hstep : hbRun (now + (List.replicate n false).length)
        (⟨none, 0 + n, iv, t⟩ : HeartbeatRecord) (true :: List.replicate m false) =
        ((hbRun (now + (List.replicate n false).length + 1)
            (⟨some (now + (List.replicate n false).length), 0, iv, t⟩ : HeartbeatRecord)
            (List.replicate m false)).1,
         (hbRun (now + (List.replicate n false).length + 1)
            (⟨some (now + (List.replicate n false).length), 0, iv, t⟩ : HeartbeatRecord)
            (List.replicate m false)).2) := by
      simp [hbRun, hbStep]
    rw [hstep, hbRun_replicate_false]
    simp only
    split_ifs <;> omega

/-- Witness for C4 at the failure threshold 5 with 6 consecutive failures,
one success and 5 further failures (exactly two escalations in total, one
per episode). -/
theorem heartbeat_escalates_once_per_episode_witness :
    0 < 5 ∧
    (hbRun 0 ⟨none, 0, 60, 5⟩ (List.replicate 6 false)).2 = 1 ∧
    (hbRun 0 ⟨none, 0, 60, 5⟩
        (List.replicate 6 false ++ true :: List.replicate 5 false)).2 = 2 := by
  have h := heartbeat_escalates_once_per_episode 5 6 5 0 60 (by decide)
  exact ⟨by decide, by rw [h.1]; decide, by rw [h.2.1]; decide⟩

/- ## Claim C6. -/

/-- C6: a ScheduledJob due at the current instant strictly advances its
nextRunAt after execution, for every possible execution outcome, and no job
is removed by a tick (tick preserves the number of jobs and keeps the
executed job, with its id, in the job set). -/
theorem scheduler_next_run_advances (now : Nat) (results : Nat → Bool)
    (jobs : List ScheduledJob) (j : ScheduledJob)
    (hmem : j ∈ jobs) (hdue : j.nextRunAt ≤ now) (hiv : 0 < j.interval) :
    (schedulerTick now results jobs).length = jobs.length ∧
    execJob now (results j.id) j ∈ schedulerTick now results jobs ∧
    j.nextRunAt < (execJob now (results j.id) j).nextRunAt ∧
    (execJob now (results j.id) j).id = j.id := by
  refine ⟨by simp [schedulerTick], ?_, ?_, rfl⟩
  · have hmap := List.mem_map_of_mem
      (fun j => if j.nextRunAt ≤ now then execJob now (results j.id) j else j) hmem
    simpa [schedulerTick, hdue] using hmap
  · simp only [execJob]
    omega

/-- Witness for C6: a due job with a positive interval, executed with a
failing outcome, stays scheduled and its nextRunAt advances. -/
theorem scheduler_next_run_advances_witness :
    job0 ∈ [job0] ∧ job0.nextRunAt ≤ 5 ∧ 0 < job0.interval ∧
    execJob 5 false job0 ∈ schedulerTick 5 (fun _ => false) [job0] ∧
    job0.nextRunAt < (execJob 5 false job0).nextRunAt := by
  have h := scheduler_next_run_advances 5 (fun _ => false) [job0] job0
    (by simp) (by decide) (by decide)
  exact ⟨by simp, by decide, by decide, h.2.1, h.2.2.1⟩

/- ## Claim C7. -/

/-- C7 counterexample: with an empty provider API key the whole gateway
command fails before any channel starts, although the Telegram channel is
enabled and correctly configured — so a missing-credential configuration
error is not contained to a single misconfigured channel, refuting the
claim at this input. -/
theorem gateway_missing_api_key_aborts_all :
    cfgNoKey.channels.telegram.enabled = true ∧
    cfgNoKey.channels.telegram.credentialsValid = true ∧
    runGateway (some cfgNoKey) =
      Except.error
        "API key not set. Run myclaw onboard or set MYCLAW_API_KEY / ANTHROPIC_API_KEY" :=
  ⟨rfl, rfl, rfl⟩

/-- C7 (amended): within channel startup a ConfigError is fatal only for
the misconfigured channel — whether a channel starts depends only on its
own enabled flag and credential validity, so every other enabled channel
remains operable; however a config load failure or a missing provider API
key at startup aborts the whole gateway before any channel starts. -/
theorem gateway_channel_isolation (cfg : Config) (h : cfg.provider.apiKey ≠ "") :
    runGateway (some cfg) = Except.ok (startChannels cfg) ∧
    ∀ ch : Channel,
      (ch ∈ (startChannels cfg).1 ↔
        (chanCfg cfg ch).enabled = true ∧ (chanCfg cfg ch).credentialsValid = true) ∧
      (ch ∈ (startChannels cfg).2 ↔
        (chanCfg cfg ch).enabled = true ∧ (chanCfg cfg ch).credentialsValid = false) := by
  refine ⟨by simp [runGateway, h], ?_⟩
  intro ch
  have hall : ch ∈ allChannels := by cases ch <;> simp [allChannels]
  constructor
  · rw [startChannels, List.mem_filter]
    simp [hall]
  · rw [startChannels, List.mem_filter]
    simp [hall]

/-- Witness for C7 (amended): with a non-empty API key, the well-configured
Telegram channel starts even though the Feishu channel has a ConfigError,
and Feishu is the only channel with a ConfigError. -/
theorem gateway_channel_isolation_witness :
    cfgMixed.provider.apiKey ≠ "" ∧
    runGateway (some cfgMixed) = Except.ok (startChannels cfgMixed) ∧
    Channel.telegram ∈ (startChannels cfgMixed).1 ∧
    Channel.feishu ∈ (startChannels cfgMixed).2 :=
  ⟨by decide, (gateway_channel_isolation cfgMixed (by decide)).1,
   ((gateway_channel_isolation cfgMixed (by decide)).2 Channel.telegram).1.mpr ⟨rfl, rfl⟩,
   ((gateway_channel_isolation cfgMixed (by decide)).2 Channel.feishu).2.mpr ⟨rfl, rfl⟩⟩

/- ## Claim C8. -/

theorem mem_replRunCalls (lines : List String) (c : RunCall)
    (hc : c ∈ replRunCalls lines) :
    c.caller = Caller.agentCLI ∧ c.ctx = contextBackground := by
  induction lines with
  | nil => simp [replRunCalls] at hc
  | cons line rest ih =>
    rw [replRunCalls] at hc
    split at hc
    · exact ih hc
    · split at hc
      · simp at hc
      · rcases List.mem_cons.mp hc with h | h
        · subst h; exact ⟨rfl, rfl⟩
        · exact ih h

/-- C8 counterexample: running `myclaw agent -m hello` produces a Run call
made by the CLI agent command, not by the Dispatcher, whose context is
context.Background() and carries no deadline — refuting, at this input,
that every Run call is made by the Dispatcher with a bounded context. -/
theorem agent_cli_calls_run_unbounded :
    runAgentRunCalls "hello" [] =
      [{ caller := Caller.agentCLI, ctx := contextBackground,
         sessionID := "cli", prompt := "hello" }] ∧
    Ctx.bounded contextBackground = false ∧
    Caller.agentCLI ≠ Caller.dispatcher := by
  refine ⟨by decide, rfl, by decide⟩

/-- C8 (amended): within the gateway, the Dispatcher builds every backend
Run invocation with a bounded (timeout-carrying) context; however the CLI
agent command also invokes Run directly, and every one of its invocations
(single-message mode and every REPL iteration) uses the unbounded
context.Background(). -/
theorem run_callers_and_contexts :
    (∀ (cfg : DispatchConfig) (sid prompt : String),
        (dispatcherRunCall cfg sid prompt).caller = Caller.dispatcher ∧
        Ctx.bounded (dispatcherRunCall cfg sid prompt).ctx = true) ∧
    (∀ (flag : String) (lines : List String) (c : RunCall),
        c ∈ runAgentRunCalls flag lines →
          c.caller = Caller.agentCLI ∧ c.ctx = contextBackground) := by
  constructor
  · intro cfg sid prompt
    exact ⟨rfl, rfl⟩
  · intro flag lines c hc
    rw [runAgentRunCalls] at hc
    split at hc
    · rcases List.mem_cons.mp hc with h | h
      · subst h; exact ⟨rfl, rfl⟩
      · simp at h
    · exact mem_replRunCalls lines c hc

/-- Witness for C8 (amended): the concrete call of `myclaw agent -m hi` is
a CLI-agent call with the unbounded background context. -/
theorem run_callers_and_contexts_witness :
    cliCallHi ∈ runAgentRunCalls "hi" [] ∧
    cliCallHi.caller = Caller.agentCLI ∧ cliCallHi.ctx = contextBackground :=
  ⟨by decide, run_callers_and_contexts.2 "hi" [] cliCallHi (by decide)⟩

/- ## File-system lemmas for onboard. -/

theorem writeIfNotExists_preserves (fs : FS) (q d p c : String)
    (h : fs p = some c) : writeIfNotExists fs q d p = some c := by
  by_cases hq : fs q = none
  · by_cases hpq : p = q
    · subst hpq; rw [h] at hq; exact Option.noConfusion hq
    · simp [writeIfNotExists, fsWrite, hq, hpq, h]
  · simp [writeIfNotExists, hq, h]

theorem writeIfNotExists_defined (fs : FS) (p c : String) :
    (writeIfNotExists fs p c p).isSome = true := by
  by_cases hp : fs p = none
  · simp [writeIfNotExists, fsWrite, hp]
  · simp [writeIfNotExists, hp, Option.isSome_iff_ne_none]

theorem writeIfNotExists_isSome (fs : FS) (q d p : String)
    (h : (fs p).isSome = true) : ((writeIfNotExists fs q d) p).isSome = true := by
  obtain ⟨c, hc⟩ := Option.isSome_iff_exists.mp h
  rw [writeIfNotExists_preserves fs q d p c hc]
  rfl

theorem writeIfNotExists_skip (fs : FS) (p c : String) (h : fs p ≠ none) :
    writeIfNotExists fs p c = fs := by
  simp [writeIfNotExists, h]

theorem runOnboard_def (loadWs : Option String → String) (fs : FS) :
    runOnboard loadWs fs =
      writeIfNotExists
        (writeIfNotExists
          (writeIfNotExists
            (writeIfNotExists (writeIfNotExists fs cfgPath defaultConfigJSON)
              (loadWs ((writeIfNotExists fs cfgPath defaultConfigJSON) cfgPath)
                ++ "/AGENTS.md")
              defaultAgentsMD)
            (loadWs ((writeIfNotExists fs cfgPath defaultConfigJSON) cfgPath)
              ++ "/SOUL.md")
            defaultSoulMD)
          (loadWs ((writeIfNotExists fs cfgPath defaultConfigJSON) cfgPath)
            ++ "/memory/MEMORY.md") "")
        (loadWs ((writeIfNotExists fs cfgPath defaultConfigJSON) cfgPath)
          ++ "/HEARTBEAT.md") "" := rfl

/- ## Claim C9. -/

/-- C9: onboard is idempotent with respect to existing files: any file that
exists before the operation keeps its content (in particular config.json,
AGENTS.md, SOUL.md, memory/MEMORY.md and HEARTBEAT.md), and running onboard
twice yields exactly the file system produced by running it once. -/
theorem onboard_idempotent (loadWs : Option String → String) (fs : FS) :
    (∀ p c, fs p = some c → runOnboard loadWs fs p = some c) ∧
    runOnboard loadWs (runOnboard loadWs fs) = runOnboard loadWs fs := by
  constructor
  · intro p c h
    rw [runOnboard_def]
    exact writeIfNotExists_preserves _ _ _ _ _
      (writeIfNotExists_preserves _ _ _ _ _
        (writeIfNotExists_preserves _ _ _ _ _
          (writeIfNotExists_preserves _ _ _ _ _
            (writeIfNotExists_preserves _ _ _ _ _ h))))
  · set fs1 := writeIfNotExists fs cfgPath defaultConfigJSON with hfs1
    set ws := loadWs (fs1 cfgPath) with hws
    set fs2 := writeIfNotExists fs1 (ws ++ "/AGENTS.md") defaultAgentsMD with hfs2
    set fs3 := writeIfNotExists fs2 (ws ++ "/SOUL.md") defaultSoulMD with hfs3
    set fs4 := writeIfNotExists fs3 (ws ++ "/memory/MEMORY.md") "" with hfs4
    set g := writeIfNotExists fs4 (ws ++ "/HEARTBEAT.md") "" with hgdef
    have hrun : runOnboard loadWs fs = g := rfl
    rw [hrun]
    -- the config file exists after the first run, with the same content
    obtain ⟨v, hv⟩ := Option.isSome_iff_exists.mp
      (writeIfNotExists_defined fs cfgPath defaultConfigJSON)
    rw [← hfs1] at hv
    have hgcfg : g cfgPath = some v := by
      rw [hgdef, hfs4, hfs3, hfs2]
      exact writeIfNotExists_preserves _ _ _ _ _
        (writeIfNotExists_preserves _ _ _ _ _
          (writeIfNotExists_preserves _ _ _ _ _
            (writeIfNotExists_preserves _ _ _ _ _ hv)))
    -- every workspace file exists after the first run
    have hp1 : (g (ws ++ "/AGENTS.md")).isSome = true := by
      rw [hgdef, hfs4, hfs3]
      exact writeIfNotExists_isSome _ _ _ _
        (writeIfNotExists_isSome _ _ _ _
          (writeIfNotExists_isSome _ _ _ _
            (writeIfNotExists_defined fs1 _ _)))
    have hp2 : (g (ws ++ "/SOUL.md")).isSome = true := by
      rw [hgdef, hfs4]
      exact writeIfNotExists_isSome _ _ _ _
        (writeIfNotExists_isSome _ _ _ _ (writeIfNotExists_defined fs2 _ _))
    have hp3 : (g (ws ++ "/memory/MEMORY.md")).isSome = true := by
      rw [hgdef]
      exact writeIfNotExists_isSome _ _ _ _ (writeIfNotExists_defined fs3 _ _)
    have hp4 : (g (ws ++ "/HEARTBEAT.md")).isSome = true :=
      writeIfNotExists_defined fs4 _ _
    -- the second run changes nothing
    rw [runOnboard_def]
    have hskip0 : writeIfNotExists g cfgPath defaultConfigJSON = g :=
      writeIfNotExists_skip _ _ _ (by rw [hgcfg]; exact fun hx => Option.noConfusion hx)
    rw [hskip0]
    have hws2 : loadWs (g cfgPath) = ws := by
      rw [hgcfg, hws, hv]
    rw [hws2]
    rw [writeIfNotExists_skip g _ _ (Option.isSome_iff_ne_none.mp hp1)]
    rw [writeIfNotExists_skip g _ _ (Option.isSome_iff_ne_none.mp hp2)]
    rw [writeIfNotExists_skip g _ _ (Option.isSome_iff_ne_none.mp hp3)]
    exact writeIfNotExists_skip g _ _ (Option.isSome_iff_ne_none.mp hp4)

/-- Witness for C9: a concrete file system with one pre-existing file keeps
that file's content across onboard. -/
theorem onboard_idempotent_witness :
    fs0 "keep.txt" = some "data" ∧
    runOnboard loadWs0 fs0 "keep.txt" = some "data" ∧
    runOnboard loadWs0 (runOnboard loadWs0 fs0) = runOnboard loadWs0 fs0 :=
  ⟨by decide, (onboard_idempotent loadWs0 fs0).1 "keep.txt" "data" (by decide),
   (onboard_idempotent loadWs0 fs0).2⟩

/- ## Claim C10. -/

theorem apiKeyLine_long (key : String) (h : 8 < key.length) :
    apiKeyLine key =
      "API Key: " ++ key.take 4 ++ "..." ++ key.drop (key.length - 4) := by
  have hne : key ≠ "" := by
    intro he
    rw [he] at h
    exact absurd h (by decide)
  rw [apiKeyLine, if_pos ⟨hne, h⟩]

/-- C10 counterexample: the two configurations cfgShortKey (6-character
key) and cfgLongKey (12-character key) agree on the first 4 and last 4
characters of their keys and on every other field, both keys are non-empty,
yet the status output differs ("API Key: set" versus the masked key) —
refuting the claimed indistinguishability as stated. -/
theorem status_output_differs_for_agreeing_keys :
    cfgShortKey.provider.apiKey.take 4 = cfgLongKey.provider.apiKey.take 4 ∧
    cfgShortKey.provider.apiKey.drop (cfgShortKey.provider.apiKey.length - 4) =
      cfgLongKey.provider.apiKey.drop (cfgLongKey.provider.apiKey.length - 4) ∧
    cfgShortKey.agent = cfgLongKey.agent ∧
    cfgShortKey.channels = cfgLongKey.channels ∧
    cfgShortKey.skills = cfgLongKey.skills ∧
    cfgShortKey.provider.type = cfgLongKey.provider.type ∧
    cfgShortKey.provider.apiKey ≠ "" ∧ cfgLongKey.provider.apiKey ≠ "" ∧
    runStatusLines cfgShortKey true "" ≠ runStatusLines cfgLongKey true "" := by
  decide

/-- C10 (amended): status never reveals the full API key: a key longer than
8 characters prints only its first 4 and last 4 characters, a shorter
non-empty key prints only "set"; and two configurations whose keys are both
longer than 8 characters and agree on the first 4 and last 4 characters,
agreeing on all other fields, produce identical status output. -/
theorem status_masks_api_key :
    (∀ key : String, 8 < key.length →
        apiKeyLine key =
          "API Key: " ++ key.take 4 ++ "..." ++ key.drop (key.length - 4)) ∧
    (∀ key : String, key ≠ "" → key.length ≤ 8 → apiKeyLine key = "API Key: set") ∧
    (∀ (c1 c2 : Config) (we : Bool) (lt : String),
        8 < c1.provider.apiKey.length → 8 < c2.provider.apiKey.length →
        c1.provider.apiKey.take 4 = c2.provider.apiKey.take 4 →
        c1.provider.apiKey.drop (c1.provider.apiKey.length - 4) =
          c2.provider.apiKey.drop (c2.provider.apiKey.length - 4) →
        c1.provider.type = c2.provider.type →
        c1.agent = c2.agent → c1.channels = c2.channels → c1.skills = c2.skills →
        runStatusLines c1 we lt = runStatusLines c2 we lt) := by
  refine ⟨fun key h => apiKeyLine_long key h, ?_, ?_⟩
  · intro key hne hle
    rw [apiKeyLine, if_neg (fun hx => absurd hx.2 (by omega)), if_pos hne]
  · intro c1 c2 we lt h1 h2 ht hd hty hag hch hsk
    rw [runStatusLines, runStatusLines, apiKeyLine_long _ h1, apiKeyLine_long _ h2,
      ht, hd, hty, hag, hch, hsk, resolveSkillsDir, resolveSkillsDir, hag, hsk]

/-- Witness for C10 (amended): two concrete configurations with 9- and
14-character keys agreeing on the first 4 and last 4 characters produce
identical status output. -/
theorem status_masks_api_key_witness :
    8 < cfgLongKeyA.provider.apiKey.length ∧
    8 < cfgLongKeyB.provider.apiKey.length ∧
    runStatusLines cfgLongKeyA true "" = runStatusLines cfgLongKeyB true "" :=
  ⟨by decide, by decide,
   status_masks_api_key.2.2 cfgLongKeyA cfgLongKeyB true "" (by decide) (by decide)
     (by decide) (by decide) rfl rfl rfl rfl⟩


/- ## Dispatcher lemmas: session updates and counting. -/

@[simp] theorem pushPending_pending (m : Message) (ss : Sess) :
    (pushPending m ss).pending = ss.pending ++ [m] := rfl

@[simp] theorem pushPending_inFlight (m : Message) (ss : Sess) :
    (pushPending m ss).inFlight = ss.inFlight := rfl

@[simp] theorem setInFlight_pending (b : Bool) (ss : Sess) :
    (setInFlight b ss).pending = ss.pending := rfl

@[simp] theorem setInFlight_inFlight (b : Bool) (ss : Sess) :
    (setInFlight b ss).inFlight = b := rfl

@[simp] theorem setPending_pending (p : List Message) (ss : Sess) :
    (setPending p ss).pending = p := rfl

@[simp] theorem setPending_inFlight (p : List Message) (ss : Sess) :
    (setPending p ss).inFlight = ss.inFlight := rfl

@[simp] theorem updSession_same (ss : SessionKey → Sess) (k : SessionKey)
    (f : Sess → Sess) : updSession ss k f k = f (ss k) := by
  simp [updSession]

theorem updSession_other (ss : SessionKey → Sess) (k k' : SessionKey)
    (f : Sess → Sess) (h : k' ≠ k) : updSession ss k f k' = ss k' := by
  simp [updSession, h]

@[simp] theorem countIf_nil (p : Message → Bool) : countIf p [] = 0 := rfl

@[simp] theorem countIf_cons (p : Message → Bool) (m : Message) (l : List Message) :
    countIf p (m :: l) = (if p m then 1 else 0) + countIf p l := rfl

theorem countIf_append (p : Message → Bool) (l1 l2 : List Message) :
    countIf p (l1 ++ l2) = countIf p l1 + countIf p l2 := by
  induction l1 with
  | nil => simp
  | cons m l ih =>
    simp only [List.cons_append, countIf_cons, ih]
    omega

theorem countIf_filter_le (p q : Message → Bool) (l : List Message) :
    countIf p (l.filter q) ≤ countIf p l := by
  induction l with
  | nil => exact Nat.le_refl 0
  | cons m l ih =>
    rw [List.filter_cons]
    split
    · simp only [countIf]
      omega
    · simp only [countIf]
      omega

theorem countKey_append (k : SessionKey) (l1 l2 : List Message) :
    countKey k (l1 ++ l2) = countKey k l1 + countKey k l2 :=
  countIf_append _ l1 l2

theorem countKey_singleton (k : SessionKey) (m : Message) :
    countKey k [m] = if m.key = k then 1 else 0 := by
  simp [countKey, countIf]

theorem countKey_cons (k : SessionKey) (m : Message) (l : List Message) :
    countKey k (m :: l) = (if m.key = k then 1 else 0) + countKey k l := by
  rw [countKey, countIf_cons, countKey]
  by_cases h : m.key = k
  · rw [if_pos (by simp [h]), if_pos h]
  · rw [if_neg (by simp [h]), if_neg h]

theorem countKey_filter_self (k : SessionKey) (l : List Message) :
    countKey k (l.filter (fun m => decide (m.key ≠ k))) = 0 := by
  induction l with
  | nil => rfl
  | cons m l ih =>
    rw [List.filter_cons]
    by_cases hm : m.key = k
    · rw [if_neg (by simp [hm])]
      exact ih
    · rw [if_pos (by simp [hm]), countKey_cons, if_neg hm, Nat.zero_add]
      exact ih

theorem countKey_filter_other (k k' : SessionKey) (l : List Message) (h : k' ≠ k) :
    countKey k' (l.filter (fun m => decide (m.key ≠ k))) = countKey k' l := by
  induction l with
  | nil => rfl
  | cons m l ih =>
    rw [List.filter_cons]
    by_cases hm : m.key = k
    · rw [if_neg (by simp [hm])]
      have hmk : ¬ m.key = k' := fun he => h ((he ▸ hm : k' = k))
      rw [ih, countKey_cons, if_neg hmk, Nat.zero_add]
    · rw [if_pos (by simp [hm])]
      rw [countKey_cons, countKey_cons, ih]

theorem keyCalls_append (k : SessionKey) (l1 l2 : List Message) :
    keyCalls k (l1 ++ l2) = keyCalls k l1 ++ keyCalls k l2 := by
  simp [keyCalls, List.filter_append]

theorem keyCalls_singleton (k : SessionKey) (m : Message) :
    keyCalls k [m] = if m.key = k then [m] else [] := by
  rw [keyCalls, List.filter_cons]
  by_cases hk : m.key = k
  · rw [if_pos (by simp [hk]), if_pos hk]
    rfl
  · rw [if_neg (by simp [hk]), if_neg hk]
    rfl

theorem keyCalls_cons_self (m : Message) (l : List Message) :
    keyCalls m.key (m :: l) = m :: keyCalls m.key l := by
  rw [keyCalls, List.filter_cons, if_pos (by simp)]
  rfl

/- ## Dispatcher lemmas: the shape of each step. -/

theorem arriveStep_dup (s : DState) (m : Message) (hdup : m.idem ∈ s.seen) :
    arriveStep s m = s := by
  rw [arriveStep, if_pos hdup]

theorem arriveStep_queued (s : DState) (m : Message)
    (hdup : m.idem ∉ s.seen) (hif : (s.sessions m.key).inFlight = true) :
    arriveStep s m =
      { s with seen := m.idem :: s.seen,
               sessions := updSession s.sessions m.key (pushPending m) } := by
  rw [arriveStep, if_neg hdup, if_pos hif]

theorem arriveStep_dispatch (s : DState) (m : Message)
    (hdup : m.idem ∉ s.seen) (hif : (s.sessions m.key).inFlight = false) :
    arriveStep s m =
      { s with seen := m.idem :: s.seen,
               sessions := updSession s.sessions m.key (setInFlight true),
               inflight := s.inflight ++ [m],
               calls := s.calls ++ [m] } := by
  rw [arriveStep, if_neg hdup, if_neg (by simp [hif])]

theorem completeStep_idle (cfg : DispatchConfig) (s : DState) (k : SessionKey)
    (attempts : List (Option String)) (hif : (s.sessions k).inFlight = false) :
    completeStep cfg s k attempts = s := by
  rw [completeStep, if_neg (by simp [hif])]

theorem completeStep_last (cfg : DispatchConfig) (s : DState) (k : SessionKey)
    (attempts : List (Option String)) (hif : (s.sessions k).inFlight = true)
    (hp : (s.sessions k).pending = []) :
    completeStep cfg s k attempts =
      { s with sent := s.sent ++ [(k, completeReply cfg attempts)],
               inflight := s.inflight.filter (fun m => decide (m.key ≠ k)),
               sessions := updSession s.sessions k (setInFlight false) } := by
  rw [completeStep, if_pos hif, hp]

theorem completeStep_next (cfg : DispatchConfig) (s : DState) (k : SessionKey)
    (attempts : List (Option String)) (m' : Message) (rest : List Message)
    (hif : (s.sessions k).inFlight = true)
    (hp : (s.sessions k).pending = m' :: rest) :
    completeStep cfg s k attempts =
      { s with sent := s.sent ++ [(k, completeReply cfg attempts)],
               inflight := s.inflight.filter (fun m => decide (m.key ≠ k)) ++ [m'],
               sessions := updSession s.sessions k (setPending rest),
               calls := s.calls ++ [m'] } := by
  rw [completeStep, if_pos hif, hp]

/- ## Dispatcher lemmas: the invariant is preserved. -/

theorem inv_init : Inv initState :=
  ⟨fun _ _ => rfl, fun _ m hm => absurd hm (List.not_mem_nil m), fun _ => rfl⟩

theorem inv_arrive (s : DState) (m : Message) (hs : Inv s) : Inv (arriveStep s m) := by
  by_cases hdup : m.idem ∈ s.seen
  · rw [arriveStep_dup s m hdup]
    exact hs
  · cases hif : (s.sessions m.key).inFlight with
    | true =>
      rw [arriveStep_queued s m hdup hif]
      refine ⟨?_, ?_, ?_⟩
      · intro k hk
        by_cases hkm : k = m.key
        · subst hkm
          simp only [updSession_same, pushPending_inFlight] at hk
          exact absurd (hif.symm.trans hk) (by decide)
        · simp only [updSession_other _ _ _ _ hkm] at hk ⊢
          exact hs.idle_empty k hk
      · intro k m' hm'
        by_cases hkm : k = m.key
        · subst hkm
          simp only [updSession_same, pushPending_pending] at hm'
          rcases List.mem_append.mp hm' with h | h
          · exact hs.pending_key m.key m' h
          · rw [List.mem_singleton.mp h]
        · simp only [updSession_other _ _ _ _ hkm] at hm'
          exact hs.pending_key k m' hm'
      · intro k
        by_cases hkm : k = m.key
        · subst hkm
          simp only [updSession_same, pushPending_inFlight]
          exact hs.flight_count m.key
        · simp only [updSession_other _ _ _ _ hkm]
          exact hs.flight_count k
    | false =>
      rw [arriveStep_dispatch s m hdup hif]
      refine ⟨?_, ?_, ?_⟩
      · intro k hk
        by_cases hkm : k = m.key
        · subst hkm
          simp only [updSession_same, setInFlight_inFlight] at hk
          exact absurd hk (by decide)
        · simp only [updSession_other _ _ _ _ hkm] at hk ⊢
          exact hs.idle_empty k hk
      · intro k m' hm'
        by_cases hkm : k = m.key
        · subst hkm
          simp only [updSession_same, setInFlight_pending] at hm'
          exact hs.pending_key m.key m' hm'
        · simp only [updSession_other _ _ _ _ hkm] at hm'
          exact hs.pending_key k m' hm'
      · intro k
        by_cases hkm : k = m.key
        · subst hkm
          simp only [updSession_same, setInFlight_inFlight, if_pos]
          rw [countKey_append, countKey_singleton, if_pos rfl,
            hs.flight_count m.key, hif]
          simp
        · simp only [updSession_other _ _ _ _ hkm]
          rw [countKey_append, countKey_singleton,
            if_neg (fun he => hkm he.symm), hs.flight_count k]
          simp

theorem inv_complete (cfg : DispatchConfig) (s : DState) (k : SessionKey)
    (attempts : List (Option String)) (hs : Inv s) :
    Inv (completeStep cfg s k attempts) := by
  cases hif : (s.sessions k).inFlight with
  | false =>
    rw [completeStep_idle cfg s k attempts hif]
    exact hs
  | true =>
    cases hp : (s.sessions k).pending with
    | nil =>
      rw [completeStep_last cfg s k attempts hif hp]
      refine ⟨?_, ?_, ?_⟩
      · intro k' hk'
        by_cases hkk : k' = k
        · subst hkk
          simp only [updSession_same, setInFlight_pending]
          exact hp
        · simp only [updSession_other _ _ _ _ hkk] at hk' ⊢
          exact hs.idle_empty k' hk'
      · intro k' m' hm'
        by_cases hkk : k' = k
        · subst hkk
          simp only [updSession_same, setInFlight_pending] at hm'
          exact hs.pending_key k' m' hm'
        · simp only [updSession_other _ _ _ _ hkk] at hm'
          exact hs.pending_key k' m' hm'
      · intro k'
        by_cases hkk : k' = k
        · subst hkk
          simp only [updSession_same, setInFlight_inFlight]
          rw [countKey_filter_self]
          simp
        · simp only [updSession_other _ _ _ _ hkk]
          rw [countKey_filter_other _ _ _ hkk]
          exact hs.flight_count k'
    | cons m' rest =>
      have hm'key : m'.key = k :=
        hs.pending_key k m' (by rw [hp]; exact List.mem_cons_self _ _)
      rw [completeStep_next cfg s k attempts m' rest hif hp]
      refine ⟨?_, ?_, ?_⟩
      · intro k' hk'
        by_cases hkk : k' = k
        · subst hkk
          simp only [updSession_same, setPending_inFlight] at hk'
          exact absurd (hif.symm.trans hk') (by decide)
        · simp only [updSession_other _ _ _ _ hkk] at hk' ⊢
          exact hs.idle_empty k' hk'
      · intro k' m'' hm''
        by_cases hkk : k' = k
        · subst hkk
          simp only [updSession_same, setPending_pending] at hm''
          exact hs.pending_key k' m'' (by rw [hp]; exact List.mem_cons_of_mem _ hm'')
        · simp only [updSession_other _ _ _ _ hkk] at hm''
          exact hs.pending_key k' m'' hm''
      · intro k'
        by_cases hkk : k' = k
        · subst hkk
          simp only [updSession_same, setPending_inFlight]
          rw [countKey_append, countKey_filter_self, countKey_singleton,
            if_pos hm'key, hif]
          simp
        · simp only [updSession_other _ _ _ _ hkk]
          rw [countKey_append, countKey_filter_other _ _ _ hkk, countKey_singleton,
            if_neg (fun he => hkk (he.symm.trans hm'key)),
            hs.flight_count k']
          simp

theorem inv_step (cfg : DispatchConfig) (s : DState) (e : Event) (hs : Inv s) :
    Inv (step cfg s e) := by
  cases e with
  | arrive m => exact inv_arrive s m hs
  | complete k a => exact inv_complete cfg s k a hs

theorem inv_drun (cfg : DispatchConfig) (es : List Event) :
    ∀ s : DState, Inv s → Inv (drun cfg s es) := by
  induction es with
  | nil => intro s hs; exact hs
  | cons e es ih => intro s hs; exact ih (step cfg s e) (inv_step cfg s e hs)

theorem inv_reachable (cfg : DispatchConfig) (s : DState) (h : Reachable cfg s) :
    Inv s := by
  obtain ⟨es, he⟩ := h
  rw [← he]
  exact inv_drun cfg es initState inv_init

/- ## Dispatcher lemmas: deduplicated arrivals. -/

theorem dedupArrivals_arrive (seen : List Nat) (k : SessionKey) (m : Message)
    (es : List Event) :
    dedupArrivals seen k (Event.arrive m :: es) =
      if m.idem ∈ seen then dedupArrivals seen k es
      else (if m.key = k then [m] else []) ++ dedupArrivals (m.idem :: seen) k es := by
  by_cases hd : m.idem ∈ seen
  · simp only [dedupArrivals, admittedMsgs, if_pos hd]
  · simp only [dedupArrivals, admittedMsgs, if_neg hd, keyCalls, List.filter_cons]
    by_cases hk : m.key = k
    · rw [if_pos (by simp [hk]), if_pos hk]
      rfl
    · rw [if_neg (by simp [hk]), if_neg hk]
      rfl

theorem dedupArrivals_complete (seen : List Nat) (k k' : SessionKey)
    (a : List (Option String)) (es : List Event) :
    dedupArrivals seen k (Event.complete k' a :: es) = dedupArrivals seen k es := by
  simp only [dedupArrivals, admittedMsgs]

/- ## Dispatcher: per-key conservation of messages. -/

/-- Along any run, the backend calls already made for a key followed by its
still-pending queue are exactly the deduplicated arrivals for that key, in
arrival order. -/
theorem dispatch_conserve (cfg : DispatchConfig) :
    ∀ (es : List Event) (s : DState), Inv s → ∀ k,
      keyCalls k (drun cfg s es).calls ++ ((drun cfg s es).sessions k).pending
        = (keyCalls k s.calls ++ (s.sessions k).pending) ++ dedupArrivals s.seen k es := by
  intro es
  induction es with
  | nil =>
    intro s hs k
    simp [drun, dedupArrivals, admittedMsgs, keyCalls]
  | cons e es ih =>
    intro s hs k
    have hstep : drun cfg s (e :: es) = drun cfg (step cfg s e) es := rfl
    rw [hstep, ih (step cfg s e) (inv_step cfg s e hs) k]
    cases e with
    | arrive m =>
      simp only [step]
      rw [dedupArrivals_arrive]
      by_cases hdup : m.idem ∈ s.seen
      · rw [arriveStep_dup s m hdup, if_pos hdup]
      · rw [if_neg hdup]
        cases hif : (s.sessions m.key).inFlight with
        | true =>
          simp only [arriveStep_queued s m hdup hif]
          by_cases hkm : k = m.key
          · subst hkm
            simp only [updSession_same, pushPending_pending, if_pos rfl]
            simp [List.append_assoc]
          · have hne : ¬ m.key = k := fun he => hkm he.symm
            simp only [updSession_other _ _ _ _ hkm, if_neg hne]
            simp
        | false =>
          simp only [arriveStep_dispatch s m hdup hif]
          by_cases hkm : k = m.key
          · subst hkm
            have hpend : (s.sessions m.key).pending = [] := hs.idle_empty m.key hif
            simp only [updSession_same, setInFlight_pending, keyCalls_append,
              keyCalls_singleton, if_pos rfl, hpend]
            simp [List.append_assoc]
          · have hne : ¬ m.key = k := fun he => hkm he.symm
            simp only [updSession_other _ _ _ _ hkm, keyCalls_append,
              keyCalls_singleton, if_neg hne]
            simp
    | complete k' attempts =>
      simp only [step]
      rw [dedupArrivals_complete]
      cases hif : (s.sessions k').inFlight with
      | false => rw [completeStep_idle cfg s k' attempts hif]
      | true =>
        cases hp : (s.sessions k').pending with
        | nil =>
          simp only [completeStep_last cfg s k' attempts hif hp]
          by_cases hkk : k = k'
          · subst hkk
            simp only [updSession_same, setInFlight_pending, hp]
          · simp only [updSession_other _ _ _ _ hkk]
        | cons m' rest =>
          have hm'key : m'.key = k' :=
            hs.pending_key k' m' (by rw [hp]; exact List.mem_cons_self _ _)
          simp only [completeStep_next cfg s k' attempts m' rest hif hp]
          by_cases hkk : k = k'
          · subst hkk
            simp only [updSession_same, setPending_pending, keyCalls_append,
              keyCalls_singleton, hm'key, if_pos rfl, hp]
            simp [List.append_assoc]
          · have hne : ¬ m'.key = k := fun he => hkk (he.symm.trans hm'key)
            simp only [updSession_other _ _ _ _ hkk, keyCalls_append,
              keyCalls_singleton, if_neg hne, hp]
            simp

/- ## Dispatcher lemmas: the recently-seen set and admitted messages. -/

theorem admittedMsgs_append (seen : List Nat) (es1 es2 : List Event) :
    admittedMsgs seen (es1 ++ es2) =
      admittedMsgs seen es1 ++ admittedMsgs (seenAfter seen es1) es2 := by
  induction es1 generalizing seen with
  | nil => simp [admittedMsgs, seenAfter]
  | cons e es ih =>
    have hconv : es.append es2 = es ++ es2 := rfl
    cases e with
    | arrive m =>
      by_cases hd : m.idem ∈ seen
      · simp only [List.cons_append, admittedMsgs, seenAfter, if_pos hd]
        rw [hconv, ih]
      · simp only [List.cons_append, admittedMsgs, seenAfter, if_neg hd]
        rw [hconv, ih]
    | complete k a =>
      simp only [List.cons_append, admittedMsgs, seenAfter]
      rw [hconv, ih]

theorem mem_seenAfter (seen : List Nat) (es : List Event) (i : Nat) (h : i ∈ seen) :
    i ∈ seenAfter seen es := by
  induction es generalizing seen with
  | nil => exact h
  | cons e es ih =>
    cases e with
    | arrive m =>
      simp only [seenAfter]
      by_cases hd : m.idem ∈ seen
      · rw [if_pos hd]
        exact ih seen h
      · rw [if_neg hd]
        exact ih _ (List.mem_cons_of_mem _ h)
    | complete k a =>
      simp only [seenAfter]
      exact ih seen h

theorem countIdem_admitted_of_seen (i : Nat) (seen : List Nat) (es : List Event)
    (h : i ∈ seen) : countIdem i (admittedMsgs seen es) = 0 := by
  induction es generalizing seen with
  | nil => rfl
  | cons e es ih =>
    cases e with
    | arrive m =>
      simp only [admittedMsgs]
      by_cases hd : m.idem ∈ seen
      · rw [if_pos hd]
        exact ih seen h
      · rw [if_neg hd]
        have hne : ¬ m.idem = i := fun he => hd (he ▸ h)
        rw [countIdem, countIf_cons, if_neg (by simp [hne]), Nat.zero_add]
        exact ih _ (List.mem_cons_of_mem _ h)
    | complete k a =>
      simp only [admittedMsgs]
      exact ih seen h

theorem countIdem_admitted_of_not_seenAfter (i : Nat) (seen : List Nat)
    (es : List Event) (h : i ∉ seenAfter seen es) :
    countIdem i (admittedMsgs seen es) = 0 := by
  induction es generalizing seen with
  | nil => rfl
  | cons e es ih =>
    cases e with
    | arrive m =>
      simp only [admittedMsgs]
      simp only [seenAfter] at h
      by_cases hd : m.idem ∈ seen
      · rw [if_pos hd]
        rw [if_pos hd] at h
        exact ih seen h
      · rw [if_neg hd]
        rw [if_neg hd] at h
        have hne : ¬ m.idem = i := by
          intro he
          subst he
          exact h (mem_seenAfter _ es _ (List.mem_cons_self _ _))
        rw [countIdem, countIf_cons, if_neg (by simp [hne]), Nat.zero_add]
        exact ih _ h
    | complete k a =>
      simp only [admittedMsgs]
      simp only [seenAfter] at h
      exact ih seen h

/- ## Claim C1. -/

/-- C1: for every session key of any reachable Dispatcher state there is at
most one backend call in flight, and a fresh Message arriving for a key
whose session is in flight is appended to that session's pending queue
while the backend-call log, the in-flight set and hence the rest of the
state are untouched — the Message is queued, never dropped. -/
theorem dispatcher_single_flight_per_key (cfg : DispatchConfig) (s : DState)
    (h : Reachable cfg s) :
    (∀ k, countKey k s.inflight ≤ 1) ∧
    ∀ m : Message, (s.sessions m.key).inFlight = true → m.idem ∉ s.seen →
      ((arriveStep s m).sessions m.key).pending =
        (s.sessions m.key).pending ++ [m] ∧
      (arriveStep s m).calls = s.calls ∧
      (arriveStep s m).inflight = s.inflight := by
  have hinv := inv_reachable cfg s h
  constructor
  · intro k
    rw [hinv.flight_count k]
    split <;> omega
  · intro m hif hdup
    rw [arriveStep_queued s m hdup hif]
    refine ⟨?_, rfl, rfl⟩
    simp only [updSession_same, pushPending_pending]

/-- Witness for C1 at a concrete reachable state: two Messages for the same
session arrive while nothing has completed; at most one call is in flight
for the key. -/
theorem dispatcher_single_flight_per_key_witness :
    Reachable cfg0 (drun cfg0 initState [Event.arrive msg1, Event.arrive msg2]) ∧
    countKey key0
      (drun cfg0 initState [Event.arrive msg1, Event.arrive msg2]).inflight ≤ 1 :=
  ⟨⟨[Event.arrive msg1, Event.arrive msg2], rfl⟩,
   (dispatcher_single_flight_per_key cfg0 _
     ⟨[Event.arrive msg1, Event.arrive msg2], rfl⟩).1 key0⟩

/- ## Claim C2. -/

/-- C2: per-key FIFO delivery: along any run from the initial state, the
requests delivered to the reasoning backend for a session key, followed by
that key's still-pending queue, are exactly the deduplicated arrivals for
that key in arrival order — so deliveries happen in arrival order and only
the per-key order is constrained (the statement is per key, leaving
cross-key interleaving free). -/
theorem dispatcher_fifo_per_key (cfg : DispatchConfig) (es : List Event)
    (k : SessionKey) :
    keyCalls k (drun cfg initState es).calls ++
        ((drun cfg initState es).sessions k).pending
      = dedupArrivals [] k es := by
  have h := dispatch_conserve cfg es initState inv_init k
  simpa [initState, keyCalls] using h

/- ## Claim C3. -/

theorem countIdem_append (i : Nat) (l1 l2 : List Message) :
    countIdem i (l1 ++ l2) = countIdem i l1 + countIdem i l2 :=
  countIf_append _ l1 l2

theorem countIdem_cons (i : Nat) (m : Message) (l : List Message) :
    countIdem i (m :: l) = (if m.idem = i then 1 else 0) + countIdem i l := by
  rw [countIdem, countIf_cons, countIdem]
  by_cases h : m.idem = i
  · rw [if_pos (by simp [h]), if_pos h]
  · rw [if_neg (by simp [h]), if_neg h]

/-- C3: deduplication: a Message whose idempotencyKey is already in the
recently-seen set is discarded unchanged before session resolution, and for
a Message delivered twice within the (unexpired) dedup window exactly one
backend dispatch results: over the whole run the idempotency key is counted
exactly once among the backend calls made for its key together with its
still-queued pending entry. -/
theorem dispatcher_dedup_exactly_once (cfg : DispatchConfig)
    (es1 es2 es3 : List Event) (m : Message)
    (hfresh : m.idem ∉ seenAfter [] es1) :
    (∀ s : DState, m.idem ∈ s.seen → arriveStep s m = s) ∧
    countIdem m.idem
        (keyCalls m.key
          (drun cfg initState
            (es1 ++ Event.arrive m :: (es2 ++ Event.arrive m :: es3))).calls) +
      countIdem m.idem
        (((drun cfg initState
            (es1 ++ Event.arrive m :: (es2 ++ Event.arrive m :: es3))).sessions
            m.key).pending) = 1 := by
  constructor
  · intro s hdup
    exact arriveStep_dup s m hdup
  · have hcons := dispatch_conserve cfg
      (es1 ++ Event.arrive m :: (es2 ++ Event.arrive m :: es3)) initState inv_init m.key
    have hfifo : keyCalls m.key
        (drun cfg initState
          (es1 ++ Event.arrive m :: (es2 ++ Event.arrive m :: es3))).calls ++
        ((drun cfg initState
          (es1 ++ Event.arrive m :: (es2 ++ Event.arrive m :: es3))).sessions
          m.key).pending =
        dedupArrivals [] m.key
          (es1 ++ Event.arrive m :: (es2 ++ Event.arrive m :: es3)) := by
      simpa [initState, keyCalls] using hcons
    rw [← countIdem_append, hfifo]
    have hadm : admittedMsgs [] (es1 ++ Event.arrive m :: (es2 ++ Event.arrive m :: es3))
        = admittedMsgs [] es1 ++
            (m :: (admittedMsgs (m.idem :: seenAfter [] es1) es2 ++
              admittedMsgs (seenAfter (m.idem :: seenAfter [] es1) es2) es3)) := by
      rw [admittedMsgs_append]
      congr 1
      simp only [admittedMsgs]
      rw [if_neg hfresh]
      congr 1
      rw [admittedMsgs_append]
      congr 1
      simp only [admittedMsgs]
      rw [if_pos (mem_seenAfter _ es2 _ (List.mem_cons_self _ _))]
    have hc1 : countIdem m.idem (admittedMsgs [] es1) = 0 :=
      countIdem_admitted_of_not_seenAfter _ _ _ hfresh
    have hc2 : countIdem m.idem
        (admittedMsgs (m.idem :: seenAfter [] es1) es2) = 0 :=
      countIdem_admitted_of_seen _ _ _ (List.mem_cons_self _ _)
    have hc3 : countIdem m.idem
        (admittedMsgs (seenAfter (m.idem :: seenAfter [] es1) es2) es3) = 0 :=
      countIdem_admitted_of_seen _ _ _
        (mem_seenAfter _ es2 _ (List.mem_cons_self _ _))
    have hkA : countIdem m.idem (keyCalls m.key (admittedMsgs [] es1)) = 0 :=
      Nat.le_zero.mp (le_trans (countIf_filter_le _ _ _) (le_of_eq hc1))
    have hkB : countIdem m.idem
        (keyCalls m.key (admittedMsgs (m.idem :: seenAfter [] es1) es2)) = 0 :=
      Nat.le_zero.mp (le_trans (countIf_filter_le _ _ _) (le_of_eq hc2))
    have hkC : countIdem m.idem
        (keyCalls m.key
          (admittedMsgs (seenAfter (m.idem :: seenAfter [] es1) es2) es3)) = 0 :=
      Nat.le_zero.mp (le_trans (countIf_filter_le _ _ _) (le_of_eq hc3))
    rw [dedupArrivals, hadm, keyCalls_append, keyCalls_cons_self, keyCalls_append,
      countIdem_append, countIdem_cons, countIdem_append, if_pos rfl,
      hkA, hkB, hkC]

/-- Witness for C3: the same Message delivered twice in a row from the
initial state yields exactly one dispatch for its key. -/
theorem dispatcher_dedup_exactly_once_witness :
    msg1.idem ∉ seenAfter [] [] ∧
    countIdem msg1.idem
        (keyCalls msg1.key
          (drun cfg0 initState
            ([] ++ Event.arrive msg1 :: ([] ++ Event.arrive msg1 :: []))).calls) +
      countIdem msg1.idem
        (((drun cfg0 initState
            ([] ++ Event.arrive msg1 :: ([] ++ Event.arrive msg1 :: []))).sessions
            msg1.key).pending) = 1 :=
  ⟨by decide, (dispatcher_dedup_exactly_once cfg0 [] [] [] msg1 (by decide)).2⟩

/- ## Claim C5. -/

theorem firstSuccess_all_none (l : List (Option String)) (h : ∀ a ∈ l, a = none) :
    firstSuccess l = none := by
  induction l with
  | nil => rfl
  | cons a l ih =>
    have ha : a = none := h a (List.mem_cons_self a l)
    subst ha
    show firstSuccess l = none
    exact ih (fun b hb => h b (List.mem_cons_of_mem _ hb))

theorem resolveCall_none (bound : Nat) (attempts : List (Option String))
    (h : ∀ a ∈ attempts, a = none) : resolveCall bound attempts = none := by
  rw [resolveCall]
  exact firstSuccess_all_none _ (fun a ha => h a (List.take_subset _ _ ha))

theorem completeReply_fallback (cfg : DispatchConfig)
    (attempts : List (Option String)) (h : ∀ a ∈ attempts, a = none) :
    completeReply cfg attempts = cfg.fallbackText := by
  rw [completeReply, resolveCall_none cfg.retryBound attempts h]

/-- C5: when every backend attempt up to the retry bound fails for an
in-flight session, completing that call invokes the originating adapter's
Send exactly once, with the configured user-facing fallback text (the
request is never silently dropped), and if the session's pending queue is
empty the session returns to Idle (inFlight becomes false, queue stays
empty). -/
theorem dispatcher_fallback_after_retries (cfg : DispatchConfig) (s : DState)
    (k : SessionKey) (attempts : List (Option String))
    (hif : (s.sessions k).inFlight = true)
    (hfail : ∀ a ∈ attempts, a = none) :
    (completeStep cfg s k attempts).sent = s.sent ++ [(k, cfg.fallbackText)] ∧
    ((s.sessions k).pending = [] →
      ((completeStep cfg s k attempts).sessions k).inFlight = false ∧
      ((completeStep cfg s k attempts).sessions k).pending = []) := by
  have hreply := completeReply_fallback cfg attempts hfail
  cases hp : (s.sessions k).pending with
  | nil =>
    rw [completeStep_last cfg s k attempts hif hp, hreply]
    refine ⟨rfl, fun _ => ⟨?_, ?_⟩⟩
    · simp only [updSession_same, setInFlight_inFlight]
    · simp only [updSession_same, setInFlight_pending]
      exact hp
  | cons m' rest =>
    rw [completeStep_next cfg s k attempts m' rest hif hp, hreply]
    refine ⟨rfl, fun hnil => ?_⟩
    exact absurd hnil (List.cons_ne_nil m' rest)

/-- Witness for C5: after one Message arrives, its backend call fails on
all three attempts; the adapter receives exactly one fallback reply. -/
theorem dispatcher_fallback_after_retries_witness :
    ((drun cfg0 initState [Event.arrive msg1]).sessions key0).inFlight = true ∧
    (∀ a ∈ ([none, none, none] : List (Option String)), a = none) ∧
    (completeStep cfg0 (drun cfg0 initState [Event.arrive msg1]) key0
        [none, none, none]).sent =
      (drun cfg0 initState [Event.arrive msg1]).sent ++ [(key0, cfg0.fallbackText)] :=
  ⟨by decide, by decide,
   (dispatcher_fallback_after_retries cfg0 _ key0 [none, none, none] (by decide)
     (by decide)).1⟩

end Myclaw
